import Mathlib

/-
  Verification of the Safe Batch Transformation Engine of shad-tweaker.

  The definitions below are shallow embeddings of the TypeScript sources:
    - backend/src/utils/validation.ts   (pattern safety validation)
    - backend/src/services/modifier.ts  (preview / apply substitution engine)
    - backend/src/services/backup.ts    (snapshot create / list / restore)
    - backend/src/services/differ.ts    (line diff and change counting)
    - backend/src/routes/templates.ts   (sequential template-rule application)

  Strings are modelled as Lean `String` / `List Char`; the filesystem and the
  backup store are modelled as explicit association lists that every operation
  threads through.  Fallible I/O is modelled with `Except`.
-/

set_option autoImplicit false
set_option maxRecDepth 8192

namespace ShadTweaker

/-! ## Pattern safety validation — backend/src/utils/validation.ts -/

/-- `c` is one of the unbounded quantifier characters `+` `*`. -/
def isQuant (c : Char) : Bool := c == '+' || c == '*'

/-- Inner scan for the JS test `/\([^)]*[+*][^)]*\)X/` (validation.ts lines
217-218 and 278-281): after an opening paren, walk to the first closing paren
(`[^)]*` cannot cross one), remembering whether a `+` or `*` occurred in
between, and test the character right after the close with `after`. -/
def groupQuantTail (after : Char → Bool) : List Char → Bool → Bool
  | [], _ => false
  | [')'], _ => false
  | ')' :: c :: _, seen => seen && after c
  | c :: rest, seen => groupQuantTail after rest (seen || isQuant c)

/-- `pattern.test` for `/\([^)]*[+*][^)]*\)X/`: some opening paren is followed
(before the next closing paren) by a `+`/`*` and the close is followed by a
character accepted by `after` (`[+*]` for nested quantifiers, `{` for the
`(a+){n,}` shape). -/
def hasNestedQuant (after : Char → Bool) : List Char → Bool
  | [] => false
  | '(' :: rest => groupQuantTail after rest false || hasNestedQuant after rest
  | _ :: rest => hasNestedQuant after rest

/-- Inner scan for `/\([^)]+\|[^)]+\)[+*]/` (validation.ts line 221): within a
group (up to the first closing paren) there must be a `|` with at least one
character before it and at least one character after it, and the close paren
must be followed by `+` or `*`.  `idx` is the offset from the group start. -/
def groupAltTail : List Char → Nat → Bool → Bool
  | [], _, _ => false
  | [')'], _, _ => false
  | ')' :: c :: _, _, seen => seen && isQuant c
  | '|' :: rest, idx, seen =>
      let good := decide (1 ≤ idx) &&
        (match rest with
         | [] => false
         | ')' :: _ => false
         | _ :: _ => true)
      groupAltTail rest (idx + 1) (seen || good)
  | _ :: rest, idx, seen => groupAltTail rest (idx + 1) seen

/-- `pattern.test` for `/\([^)]+\|[^)]+\)[+*]/`: alternation inside a
quantified group. -/
def hasAltQuant : List Char → Bool
  | [] => false
  | '(' :: rest => groupAltTail rest 0 false || hasAltQuant rest
  | _ :: rest => hasAltQuant rest

/-- Substring test, used for the literal-substring regex tests
(`/(\.\*){2,}/` ⟺ contains `.*.*`, `/(\.\+){2,}/` ⟺ contains `.+.+`,
`/\(\?/` ⟺ contains `(?`, `/(\.\*|\.\+)/` ⟺ contains `.*` or `.+`). -/
def listContains (needle : List Char) : List Char → Bool
  | [] => needle.isPrefixOf []
  | c :: rest => needle.isPrefixOf (c :: rest) || listContains needle rest

/-- `/\\[1-9]/.test(pattern)` (validation.ts line 257): a backslash directly
followed by a digit 1-9 anywhere in the pattern. -/
def hasBackref : List Char → Bool
  | [] => false
  | '\\' :: c :: rest => (decide ('1' ≤ c) && decide (c ≤ '9')) || hasBackref (c :: rest)
  | _ :: rest => hasBackref rest

/-- Splits a leading run of decimal digits off a character list. -/
def takeDigits : List Char → List Char × List Char
  | [] => ([], [])
  | c :: rest =>
      if c.isDigit then
        let p := takeDigits rest
        (c :: p.1, p.2)
      else ([], c :: rest)

/-- Numeric value of a digit run (`parseInt(s, 10)` on a `\d+` capture). -/
def digitsToNat (ds : List Char) : Nat :=
  ds.foldl (fun n c => n * 10 + (c.toNat - 48)) 0

/-- After a `{`, does the rest start with `\d+,?\d*\}` — the repetition branch
of the quantifier-counting regex `/[+*?]|\{\d+,?\d*\}/g` (validation.ts line
231)?  The match is deterministic: `\d+` must take all leading digits, a
present comma must be consumed, and `\d*` again takes all digits. -/
def tryBraceQuant (cs : List Char) : Bool :=
  let p1 := takeDigits cs
  if p1.1 = [] then false
  else
    let r2 := match p1.2 with
      | ',' :: r => r
      | r => r
    let p2 := takeDigits r2
    match p2.2 with
    | '}' :: _ => true
    | _ => false

/-- Number of matches of `/[+*?]|\{\d+,?\d*\}/g` (validation.ts line 231).
The character-by-character scan is equivalent to the regex's skip-past-match
scan because the interior of a matched `{…}` consists of digits and a comma
only, so it can neither start another match nor contain a quantifier
character. -/
def countQuantifiers : List Char → Nat
  | [] => 0
  | c :: rest =>
      (if c == '+' || c == '*' || c == '?' then 1
       else if c == '{' && tryBraceQuant rest then 1
       else 0) + countQuantifiers rest

/-- After a `{`, parse `(\d+)(,(\d+))?\}` — one match of the repetition-range
regex `/\{(\d+)(,(\d+))?\}/g` of validation.ts line 286.  Unlike the counting
regex above, the comma must be followed by at least one digit.  Returns the
(min, max) pair, with max defaulting to min. -/
def tryRange (cs : List Char) : Option (Nat × Nat) :=
  let p1 := takeDigits cs
  if p1.1 = [] then none
  else
    match p1.2 with
    | '}' :: _ => some (digitsToNat p1.1, digitsToNat p1.1)
    | ',' :: r2 =>
        let p2 := takeDigits r2
        if p2.1 = [] then none
        else
          match p2.2 with
          | '}' :: _ => some (digitsToNat p1.1, digitsToNat p2.1)
          | _ => none
    | _ => none

/-- The repetition-range loop of `isRegexSafe` (validation.ts lines 286-295):
every match of `/\{(\d+)(,(\d+))?\}/g` must have `min ≤ max ≤ 100`.  As for
`countQuantifiers`, scanning character by character is equivalent to skipping
past each match, since a matched range contains no further `{`. -/
def rangesAcceptable : List Char → Bool
  | [] => true
  | c :: rest =>
      (if c == '{' then
        match tryRange rest with
        | some p => decide (p.1 ≤ p.2) && decide (p.2 ≤ 100)
        | none => true
       else true) && rangesAcceptable rest

/-- `isRegexDangerous` (validation.ts lines 206-237): length bound, the five
catastrophic-backtracking shapes, and the total quantifier budget. -/
def isRegexDangerous (p : List Char) : Bool :=
  decide (p.length > 500) ||
  hasNestedQuant isQuant p ||
  hasNestedQuant (· == '{') p ||
  listContains ".*.*".data p ||
  listContains ".+.+".data p ||
  hasAltQuant p ||
  decide (countQuantifiers p > 10)

/-- `isRegexSafe` (validation.ts lines 250-298): printable ASCII only, no
backreferences, no `(?` constructs, no alternation, no `.*`/`.+` at all, no
quantified groups, and small well-ordered repetition ranges. -/
def isRegexSafe (p : List Char) : Bool :=
  p.all (fun c => decide (32 ≤ c.toNat) && decide (c.toNat ≤ 126)) &&
  !hasBackref p &&
  !listContains "(?".data p &&
  !p.contains '|' &&
  !(listContains ".*".data p || listContains ".+".data p) &&
  !hasNestedQuant isQuant p &&
  !hasNestedQuant (· == '{') p &&
  rangesAcceptable p

/-- Outcome shape of `validateRegex`: `{ valid, error? }`. -/
structure VResult where
  valid : Bool
  error : Option String
deriving Repr, DecidableEq

/-- The fixed ReDoS rejection message of validation.ts line 305. -/
def redosError : String :=
  "Pattern may cause performance issues (ReDoS). Please simplify the pattern."

/-- The fixed unsafe-features rejection message of validation.ts lines 314-315. -/
def unsafeError : String :=
  "Pattern uses unsupported or unsafe regex features. Please use simple expressions without backreferences, lookarounds, or complex quantifiers."

/-- `validateRegex` (validation.ts lines 300-328).  The final
`new RegExp(pattern)` try/catch delegates to the host regex engine; it is
modelled by the `compile` parameter returning either success or the engine's
error message. -/
def validateRegex (compile : List Char → Except String Unit) (p : List Char) : VResult :=
  if isRegexDangerous p then ⟨false, some redosError⟩
  else if !isRegexSafe p then ⟨false, some unsafeError⟩
  else
    match compile p with
    | .ok _ => ⟨true, none⟩
    | .error e => ⟨false, some e⟩

/-- A compile oracle under which every pattern compiles; stands for the host
engine on the concrete, syntactically well-formed inputs it is used with. -/
def compileAll : List Char → Except String Unit := fun _ => .ok ()

/-! ## Substitution engine — backend/src/services/modifier.ts

A compiled global regex is modelled by its observable behaviour: the list of
non-overlapping matches it finds in a content string, each with its start
position, length, and the values of the pattern's capture groups.  Both
`content.match(re)` (match count) and `content.replace(re, s)` are driven by
exactly these matches.  Captures matter: the validator bans only `(?`
constructs, so a validated pattern may contain plain capture groups (e.g.
`(cursor)-pointer`), and `String.replace` then expands `$n` to the captured
text. -/

/-- One regex match: start position, length, and the capture-group values
(`none` for an unmatched optional group). -/
structure MatchSpan where
  start : Nat
  len : Nat
  captures : List (Option String)
deriving Repr, DecidableEq

/-- A regex engine: pattern string ↦ content ↦ matches. -/
abbrev RegexEngine := String → String → List MatchSpan

/-- The text of capture group `n` (1-based): the captured string, or empty
when the group did not participate in the match. -/
def capRef (caps : List (Option String)) (n : Nat) : List Char :=
  match caps.getD (n - 1) none with
  | some s => s.data
  | none => []

/-- ECMA-262 `GetSubstitution` for a string replacement argument: `$$` is a
literal dollar, `$&` the matched text, a dollar-backquote the text before the
match, a dollar-quote the text after it, and `$n` / `$nn` the nth capture
group of the match — preferring the two-digit reference when it names an
existing group, falling back to the one-digit reference, and keeping the
sequence literally when the named group does not exist.  This is what
`String.prototype.replace` applies in modifier.ts lines 37 and 96. -/
def expandRepl (matched before after : List Char) (caps : List (Option String)) :
    List Char → List Char
  | [] => []
  | [c] => if c == '$' then ['$'] else [c]
  | c :: d :: r2 =>
      if c == '$' then
        if d == '$' then '$' :: expandRepl matched before after caps r2
        else if d == '&' then matched ++ expandRepl matched before after caps r2
        else if d == Char.ofNat 96 then before ++ expandRepl matched before after caps r2
        else if d == Char.ofNat 39 then after ++ expandRepl matched before after caps r2
        else if d.isDigit then
          match r2 with
          | d2 :: r3 =>
              if d2.isDigit then
                if 1 ≤ (d.toNat - 48) * 10 + (d2.toNat - 48) ∧
                    (d.toNat - 48) * 10 + (d2.toNat - 48) ≤ caps.length then
                  capRef caps ((d.toNat - 48) * 10 + (d2.toNat - 48)) ++
                    expandRepl matched before after caps r3
                else if 1 ≤ d.toNat - 48 ∧ d.toNat - 48 ≤ caps.length then
                  capRef caps (d.toNat - 48) ++ expandRepl matched before after caps (d2 :: r3)
                else '$' :: d :: expandRepl matched before after caps (d2 :: r3)
              else if 1 ≤ d.toNat - 48 ∧ d.toNat - 48 ≤ caps.length then
                capRef caps (d.toNat - 48) ++ expandRepl matched before after caps (d2 :: r3)
              else '$' :: d :: expandRepl matched before after caps (d2 :: r3)
          | [] =>
              if 1 ≤ d.toNat - 48 ∧ d.toNat - 48 ≤ caps.length then
                capRef caps (d.toNat - 48)
              else ['$', d]
        else '$' :: expandRepl matched before after caps (d :: r2)
      else c :: expandRepl matched before after caps (d :: r2)

/-- `content.replace(re, repl)` over the matches: keep the text between
matches, and insert the expanded replacement for each match.  `pos` is the
cursor behind the last processed match. -/
def replaceSpansGo (full repl : List Char) : Nat → List MatchSpan → List Char
  | pos, [] => List.drop pos full
  | pos, sp :: rest =>
      List.take (sp.start - pos) (List.drop pos full) ++
      expandRepl (List.take sp.len (List.drop sp.start full)) (List.take sp.start full)
        (List.drop (sp.start + sp.len) full) sp.captures repl ++
      replaceSpansGo full repl (sp.start + sp.len) rest

/-- Modelled from the spec: "the replacement text is always inserted
literally".  Identical to `replaceSpansGo` except that the replacement is
spliced in verbatim, with no dollar-sequence expansion and captures ignored.
Used only to compare the code's behaviour against the spec's words. -/
def replaceSpansLit (full repl : List Char) : Nat → List MatchSpan → List Char
  | pos, [] => List.drop pos full
  | pos, sp :: rest =>
      List.take (sp.start - pos) (List.drop pos full) ++ repl ++
      replaceSpansLit full repl (sp.start + sp.len) rest

/-- Worker for `splitL`: a positive `skip` means the scanner is still inside
a previously recognised separator occurrence and discards the character; at
`skip = 0` a separator occurrence starting here closes the current part and
schedules the separator's remaining `pat.length - 1` characters to be
skipped, and any other character is prepended to the current part. -/
def splitGo (pat : List Char) : List Char → Nat → List (List Char)
  | [], _ => [[]]
  | _ :: rest, skip + 1 => splitGo pat rest skip
  | c :: rest, 0 =>
      if pat ≠ [] ∧ pat.isPrefixOf (c :: rest) = true then
        [] :: splitGo pat rest (pat.length - 1)
      else
        match splitGo pat rest 0 with
        | [] => [[c]]
        | h2 :: t => (c :: h2) :: t

/-- JS `sep ≠ "" → content.split(sep)`: split at each leftmost
non-overlapping occurrence of the separator. -/
def splitL (pat cs : List Char) : List (List Char) := splitGo pat cs 0

/-- Worker for `countOccL`, with the same skip discipline as `splitGo`. -/
def countOccGo (pat : List Char) : List Char → Nat → Nat
  | [], _ => 0
  | _ :: rest, skip + 1 => countOccGo pat rest skip
  | c :: rest, 0 =>
      if pat ≠ [] ∧ pat.isPrefixOf (c :: rest) = true then
        countOccGo pat rest (pat.length - 1) + 1
      else countOccGo pat rest 0

/-- Number of leftmost non-overlapping occurrences of a non-empty `pat`: the
length of `content.match(new RegExp(escapedFind, 'g'))` for the
metacharacter-escaped literal pattern of modifier.ts lines 98-100. -/
def countOccL (pat cs : List Char) : Nat := countOccGo pat cs 0

/-- Worker collecting the (start, length) spans of the leftmost
non-overlapping occurrences of a literal pattern, with the same skip
discipline as `splitGo`; `pos` is the absolute position of the scanner. -/
def occGo (pat : List Char) : List Char → Nat → Nat → List (Nat × Nat)
  | [], _, _ => []
  | _ :: rest, pos, skip + 1 => occGo pat rest (pos + 1) skip
  | c :: rest, pos, 0 =>
      if pat ≠ [] ∧ pat.isPrefixOf (c :: rest) = true then
        (pos, pat.length) :: occGo pat rest (pos + 1) (pat.length - 1)
      else occGo pat rest (pos + 1) 0

/-- The literal engine: the matches the JS engine produces on a pattern
without metacharacters — each occurrence of the literal text, with no capture
groups.  Used to instantiate `RegexEngine` at concrete inputs. -/
def litEngine : RegexEngine := fun pat content =>
  (occGo pat.data content.data 0 0).map (fun sl => ⟨sl.1, sl.2, []⟩)

/-- The JS engine's behaviour on the concrete validated pattern
`(cursor)-pointer` (a plain capture group, which the validator accepts): it
matches each occurrence of the literal text `cursor-pointer`, capturing
`cursor` as group 1. -/
def cursorGroupEngine : RegexEngine := fun _pat content =>
  (occGo "cursor-pointer".data content.data 0 0).map (fun sl => ⟨sl.1, sl.2, [some "cursor"]⟩)

/-- Match count of the escaped-literal global regex (modifier.ts lines
98-101): for the empty pattern the JS regex matches at every position
(`length + 1` empty matches), otherwise it finds each non-overlapping
occurrence. -/
def jsLiteralCount (pat cs : List Char) : Nat :=
  if pat = [] then cs.length + 1 else countOccL pat cs

/-- `content.split(find).join(replace)` (modifier.ts line 102): JS splits an
empty separator into single characters; a non-empty separator splits at each
leftmost non-overlapping occurrence. -/
def jsSplitJoin (pat repl cs : List Char) : List Char :=
  if pat = [] then List.intercalate repl (cs.map (fun c => [c]))
  else List.intercalate repl (splitL pat cs)

/-- The substitution step of `applyChanges` (modifier.ts lines 93-103): in
regex mode the match count is the number of matches of the global pattern and
the candidate text is `content.replace(new RegExp(find, 'g'), replace)`; in
literal mode the count comes from the escaped-literal regex and the candidate
from `split`/`join`.  Returns (match count, candidate text). -/
def applySubstitute (E : RegexEngine) (content find repl : String) (isRegex : Bool) :
    Nat × String :=
  if isRegex then
    let spans := E find content
    (spans.length, String.mk (replaceSpansGo content.data repl.data 0 spans))
  else
    (jsLiteralCount find.data content.data,
     String.mk (jsSplitJoin find.data repl.data content.data))

/-- The substitution step of `previewChanges` (modifier.ts lines 34-43): the
same computation as in `applyChanges` — regex mode matches and replaces with
the same global pattern, literal mode counts with the escaped-literal regex
and rewrites with `split`/`join`. -/
def previewSubstitute (E : RegexEngine) (content find repl : String) (isRegex : Bool) :
    Nat × String :=
  if isRegex then
    let spans := E find content
    (spans.length, String.mk (replaceSpansGo content.data repl.data 0 spans))
  else
    (jsLiteralCount find.data content.data,
     String.mk (jsSplitJoin find.data repl.data content.data))

/-! ## Line diff — backend/src/services/differ.ts

`Diff.diffLines` of the jsdiff library tokenizes both texts into lines that
retain their trailing newline and produces a shortest-edit-script (LCS) diff
whose parts are maximal runs of unchanged / added / removed lines. -/

/-- Diff part kinds: an unchanged, inserted or deleted line. -/
inductive DKind where
  | keep
  | ins
  | del
deriving Repr, DecidableEq

/-- Accumulating scanner for `toLines`. -/
def slkGo (cur : List Char) : List Char → List (List Char)
  | [] => if cur = [] then [] else [cur.reverse]
  | c :: rest =>
      if c == '\n' then (c :: cur).reverse :: slkGo [] rest
      else slkGo (c :: cur) rest

/-- jsdiff line tokenization: split after every newline, each line keeping its
trailing newline; a final line without a newline is its own token. -/
def toLines (s : String) : List String := (slkGo [] s.data).map String.mk

/-- Length of a longest common subsequence of two line lists. -/
def lcsLen : List String → List String → Nat
  | [], _ => 0
  | _ :: _, [] => 0
  | a :: as, b :: bs =>
      if a = b then lcsLen as bs + 1
      else max (lcsLen as (b :: bs)) (lcsLen (a :: as) bs)
termination_by xs ys => xs.length + ys.length
decreasing_by
  · simp only [List.length_cons]; omega
  · simp only [List.length_cons]; omega
  · simp only [List.length_cons]; omega

/-- An LCS diff of two line lists, one entry per line; removals are emitted
before insertions at each divergence, as jsdiff does. -/
def diffL : List String → List String → List (DKind × String)
  | [], [] => []
  | [], b :: bs => (DKind.ins, b) :: diffL [] bs
  | a :: as, [] => (DKind.del, a) :: diffL as []
  | a :: as, b :: bs =>
      if a = b then (DKind.keep, a) :: diffL as bs
      else if lcsLen (a :: as) bs ≤ lcsLen as (b :: bs) then
        (DKind.del, a) :: diffL as (b :: bs)
      else (DKind.ins, b) :: diffL (a :: as) bs
termination_by xs ys => xs.length + ys.length
decreasing_by
  · simp only [List.length_cons]; omega
  · simp only [List.length_cons]; omega
  · simp only [List.length_cons]; omega
  · simp only [List.length_cons]; omega
  · simp only [List.length_cons]; omega

/-- Counts the added/removed parts of the merged diff: one per maximal run of
consecutive `ins` lines and one per maximal run of consecutive `del` lines.
This is `changes.filter(c => c.added || c.removed).length` over jsdiff's
merged parts, and equally the `changeCount` accumulation of `generateDiff`
(differ.ts lines 22-49), which adds 1 per added part and 1 per removed
part. -/
def countRunsGo (prev : Option DKind) : List (DKind × String) → Nat
  | [] => 0
  | (k, _) :: rest =>
      (if (k = DKind.ins ∨ k = DKind.del) ∧ prev ≠ some k then 1 else 0) +
      countRunsGo (some k) rest

/-- `countChanges` (differ.ts lines 86-91). -/
def countChanges (oldS newS : String) : Nat :=
  if oldS = newS then 0
  else countRunsGo none (diffL (toLines oldS) (toLines newS))

/-! ## Filesystem model

The content repository is an association list from paths to file entries; a
missing path makes `readFile`/`copy` fail, and an entry whose `writeFails`
flag is set makes the write/rename step of an atomic replace fail, leaving
the original content intact. -/

/-- One file of the modelled filesystem. -/
structure FileEntry where
  content : String
  writeFails : Bool
deriving Repr, DecidableEq

/-- The modelled filesystem. -/
abbrev FS := List (String × FileEntry)

/-- First-match association-list lookup. -/
def lookupA {α : Type} : List (String × α) → String → Option α
  | [], _ => none
  | (k, v) :: rest, key => if k == key then some v else lookupA rest key

/-- Replace the first binding of `key` (append a new binding if absent). -/
def setA {α : Type} : List (String × α) → String → α → List (String × α)
  | [], key, v => [(key, v)]
  | (k, w) :: rest, key, v =>
      if k == key then (key, v) :: rest else (k, w) :: setA rest key v

/-- `fs.readFile(p, 'utf-8')`. -/
def readFS (fs : FS) (p : String) : Except String String :=
  match lookupA fs p with
  | some e => .ok e.content
  | none => .error "ENOENT: no such file or directory"

/-- The write-then-atomic-rename of modifier.ts lines 106-108 (and `fs.copy`
with overwrite): replaces the content of `p`, or fails without mutating
anything when the entry refuses writes. -/
def writeFS (fs : FS) (p c : String) : Except String FS :=
  match lookupA fs p with
  | some e =>
      if e.writeFails then .error "EACCES: permission denied"
      else .ok (setA fs p ⟨c, e.writeFails⟩)
  | none => .ok (setA fs p ⟨c, false⟩)

/-! ## Backup manager — backend/src/services/backup.ts -/

/-- `manifest.json`: id, timestamp, and the `{originalPath, backupPath}`
entries (backup paths are stored relative to the snapshot directory). -/
structure Manifest where
  id : String
  timestamp : String
  files : List (String × String)
deriving Repr, DecidableEq

/-- One snapshot directory: the copied files (name ↦ content) and the
manifest, present only once `createBackup` has written it. -/
structure BackupDir where
  files : List (String × String)
  manifest : Option Manifest
deriving Repr, DecidableEq

/-- The backup root `.shadcn-tweaker/backups`: directory name ↦ directory. -/
abbrev BackupStore := List (String × BackupDir)

/-- The `Backup` record returned by `createBackup` and `listBackups`. -/
structure Backup where
  id : String
  timestamp : String
  components : List String
  size : Nat
deriving Repr, DecidableEq

/-- `path.basename`: the part of a path after the last slash. -/
def baseName (p : String) : String :=
  String.mk (((p.data.reverse).takeWhile (fun c => c ≠ '/')).reverse)

/-- The copy loop of `createBackup` (backup.ts lines 32-50): copy each
requested path into the snapshot directory, accumulating manifest entries and
the total size; the first failing copy aborts the whole create (`throw
error`), returning the partially filled directory. -/
def copyFiles (fs : FS) :
    BackupDir → List (String × String) → Nat → List String →
    Except (String × BackupDir) (BackupDir × List (String × String) × Nat)
  | dir, entries, size, [] => .ok (dir, entries, size)
  | dir, entries, size, p :: rest =>
      match readFS fs p with
      | .error e => .error (e, dir)
      | .ok c =>
          copyFiles fs { dir with files := setA dir.files (baseName p) c }
            (entries ++ [(p, baseName p)]) (size + c.length) rest

/-- `createBackup` (backup.ts lines 18-63): ensure the snapshot directory,
copy every path, and only after every copy succeeded write the manifest.  A
copy failure leaves the directory without a manifest and propagates the
error.  The generated id and timestamp are passed in as `bid`/`ts`. -/
def createBackup (fs : FS) (store : BackupStore) (bid ts : String) (paths : List String) :
    Except (String × BackupStore) (Backup × BackupStore) :=
  let dir0 := (lookupA store bid).getD ⟨[], none⟩
  let store0 := setA store bid dir0
  match copyFiles fs dir0 [] 0 paths with
  | .error (e, dirP) => .error (e, setA store0 bid dirP)
  | .ok (dirC, entries, size) =>
      .ok (⟨bid, ts, paths, size⟩,
           setA store0 bid { dirC with manifest := some ⟨bid, ts, entries⟩ })

/-- Size reported by `listBackups` for one manifest entry: the copied file's
size if it still exists, 0 otherwise. -/
def entrySize (d : BackupDir) (bpath : String) : Nat :=
  match lookupA d.files bpath with
  | some c => c.length
  | none => 0

/-- `listBackups` (backup.ts lines 65-108): every directory whose name starts
with `backup_` and that has a readable manifest becomes a `Backup` record;
directories without a manifest are skipped.  The result is sorted newest
first by timestamp. -/
def listBackups (store : BackupStore) : List Backup :=
  let raw := store.filterMap (fun nd =>
    if nd.1.startsWith "backup_" then
      match nd.2.manifest with
      | some m =>
          some ⟨m.id, m.timestamp, m.files.map Prod.fst,
                (m.files.map (fun f => entrySize nd.2 f.2)).sum⟩
      | none => none
    else none)
  raw.mergeSort (fun a b => b.timestamp ≤ a.timestamp)

/-- Result shape of `restoreBackup`. -/
structure RestoreResult where
  success : Bool
  restored : List String
  count : Nat
deriving Repr, DecidableEq

/-- The restore loop of `restoreBackup` (backup.ts lines 121-132): for each
manifest entry whose snapshot copy still exists, overwrite the original path;
an entry whose copy is missing is skipped silently; a failing copy-back
rethrows, aborting the loop and keeping the files restored so far. -/
def restoreLoop (dir : BackupDir) :
    FS → List String → List (String × String) → Except (String × FS) (List String × FS)
  | fs, restored, [] => .ok (restored, fs)
  | fs, restored, (orig, bpath) :: rest =>
      match lookupA dir.files bpath with
      | none => restoreLoop dir fs restored rest
      | some c =>
          match writeFS fs orig c with
          | .error e => .error (e, fs)
          | .ok fs1 => restoreLoop dir fs1 (restored ++ [orig]) rest

/-- `restoreBackup` (backup.ts lines 110-139): fails when the manifest does
not exist, otherwise runs the restore loop over the manifest entries. -/
def restoreBackup (fs : FS) (store : BackupStore) (bid : String) :
    Except (String × FS) (RestoreResult × FS) :=
  match lookupA store bid with
  | none => .error ("Backup not found: " ++ bid, fs)
  | some dir =>
      match dir.manifest with
      | none => .error ("Backup not found: " ++ bid, fs)
      | some m =>
          match restoreLoop dir fs [] m.files with
          | .error e => .error e
          | .ok (restored, fs1) => .ok (⟨true, restored, restored.length⟩, fs1)

/-! ## Transform engine — backend/src/services/modifier.ts -/

/-- The `ModifyResult` of modifier.ts lines 9-15 (`errors = []` stands for
the `undefined` errors field). -/
structure ModifyResult where
  success : Bool
  modified : List String
  changes : Nat
  backupId : Option String
  errors : List (String × String)
deriving Repr, DecidableEq

/-- Intermediate state of the per-path loop of `applyChanges`. -/
structure LoopOut where
  modified : List String
  errors : List (String × String)
  changes : Nat
  fs : FS
deriving Repr, DecidableEq

/-- The per-path loop of `applyChanges` (modifier.ts lines 87-119): read each
path in order; a read failure is recorded per path and processing continues;
zero matches skip the path silently; otherwise the candidate text is written
atomically (a write failure is likewise recorded per path) and the path and
its match count are recorded. -/
def applyLoop (E : RegexEngine) (find repl : String) (isRegex : Bool) :
    FS → List String → LoopOut
  | fs, [] => ⟨[], [], 0, fs⟩
  | fs, p :: rest =>
      match readFS fs p with
      | .error e =>
          let r := applyLoop E find repl isRegex fs rest
          ⟨r.modified, (p, e) :: r.errors, r.changes, r.fs⟩
      | .ok c =>
          let sub := applySubstitute E c find repl isRegex
          if 0 < sub.1 then
            match writeFS fs p sub.2 with
            | .error e =>
                let r := applyLoop E find repl isRegex fs rest
                ⟨r.modified, (p, e) :: r.errors, r.changes, r.fs⟩
            | .ok fs1 =>
                let r := applyLoop E find repl isRegex fs1 rest
                ⟨p :: r.modified, r.errors, sub.1 + r.changes, r.fs⟩
          else applyLoop E find repl isRegex fs rest

/-- The fixed backup-failure error message of modifier.ts line 80. -/
def backupFailError : String := "Failed to create backup before modifications"

/-- `applyChanges` (modifier.ts lines 58-128): when a backup is requested it
is created first, and a backup failure aborts the whole apply with zero
mutations; otherwise the per-path loop runs and `success` is true iff no
per-path error occurred. -/
def applyChanges (E : RegexEngine) (fs : FS) (store : BackupStore) (bid ts : String)
    (paths : List String) (find repl : String) (isRegex shouldBackup : Bool) :
    ModifyResult × FS × BackupStore :=
  if shouldBackup then
    match createBackup fs store bid ts paths with
    | .error (_, store1) =>
        (⟨false, [], 0, none, [("backup", backupFailError)]⟩, fs, store1)
    | .ok (b, store1) =>
        let r := applyLoop E find repl isRegex fs paths
        (⟨r.errors.isEmpty, r.modified, r.changes, some b.id, r.errors⟩, r.fs, store1)
  else
    let r := applyLoop E find repl isRegex fs paths
    (⟨r.errors.isEmpty, r.modified, r.changes, none, r.errors⟩, r.fs, store)

/-! ## Template application — backend/src/routes/templates.ts -/

/-- One template rule. -/
structure Rule where
  find : String
  replace : String
  isRegex : Bool
deriving Repr, DecidableEq

/-- `if (!allModified.includes(path)) allModified.push(path)` (templates.ts
lines 323-327). -/
def pushUnique (acc : List String) (p : String) : List String :=
  if acc.contains p then acc else acc ++ [p]

/-- The rule loop of the template apply route (templates.ts lines 303-329):
apply each rule in index order, backing up only on the first rule, taking the
backup id only from the first rule's result, accumulating the union of
modified paths without duplicates and the sum of the change counts. -/
def templateLoop (E : RegexEngine) (bid ts : String) (paths : List String) :
    List Rule → Bool → List String → Nat → Option String → FS → BackupStore →
    List String × Nat × Option String × FS × BackupStore
  | [], _, accM, accC, accB, fs, store => (accM, accC, accB, fs, store)
  | r :: rest, isFirst, accM, accC, accB, fs, store =>
      let out := applyChanges E fs store bid ts paths r.find r.replace r.isRegex isFirst
      let accB1 := if isFirst && out.1.backupId.isSome then out.1.backupId else accB
      templateLoop E bid ts paths rest false (out.1.modified.foldl pushUnique accM)
        (accC + out.1.changes) accB1 out.2.1 out.2.2

/-- The whole `POST /:id/apply` accumulation: rules applied sequentially
starting with empty accumulators; returns (modified, changes, backupId) and
the final filesystem and backup store. -/
def applyTemplate (E : RegexEngine) (fs : FS) (store : BackupStore) (bid ts : String)
    (rules : List Rule) (paths : List String) :
    List String × Nat × Option String × FS × BackupStore :=
  templateLoop E bid ts paths rules true [] 0 none fs store

/-- The list of the per-rule `applyChanges` results of one template
invocation, threading the filesystem and store exactly as the route's loop
does (first rule with backup, later rules without). -/
def templateResults (E : RegexEngine) (bid ts : String) (paths : List String) :
    List Rule → Bool → FS → BackupStore → List ModifyResult
  | [], _, _, _ => []
  | r :: rest, isFirst, fs, store =>
      let out := applyChanges E fs store bid ts paths r.find r.replace r.isRegex isFirst
      out.1 :: templateResults E bid ts paths rest false out.2.1 out.2.2

/-! ## Derived specification predicates -/

/-- Whether the atomic write of `writeFS` to `p` would succeed on `fs`. -/
def canWrite (fs : FS) (p : String) : Bool :=
  match lookupA fs p with
  | some e => !e.writeFails
  | none => true

/-- What the apply loop owes one path `p`, in terms of the filesystem `fs` it
was started on and its output `out`: a read failure puts `p` in the per-path
errors and nowhere else; zero matches leave `p` unreported and its content
untouched; a positive match count either rewrites `p` to the candidate text
and reports it modified, or (when the write fails) records a per-path error
and leaves `p` alone. -/
def pathFate (E : RegexEngine) (find repl : String) (isRegex : Bool)
    (fs : FS) (out : LoopOut) (p : String) : Prop :=
  match readFS fs p with
  | .error _ => p ∈ out.errors.map Prod.fst ∧ p ∉ out.modified
  | .ok c =>
      if 0 < (applySubstitute E c find repl isRegex).1 then
        if canWrite fs p then
          p ∈ out.modified ∧ p ∉ out.errors.map Prod.fst ∧
            readFS out.fs p = .ok (applySubstitute E c find repl isRegex).2
        else p ∈ out.errors.map Prod.fst ∧ p ∉ out.modified
      else p ∉ out.modified ∧ p ∉ out.errors.map Prod.fst ∧ readFS out.fs p = readFS fs p

/-! # Theorems -/

section Lemmas

theorem lookupA_setA_self {α : Type} (l : List (String × α)) (k : String) (v : α) :
    lookupA (setA l k v) k = some v := by
  induction l with
  | nil => simp [setA, lookupA]
  | cons kv rest ih =>
      by_cases h : kv.1 = k
      · simp [setA, lookupA, h]
      · simp [setA, lookupA, h, ih]

theorem lookupA_setA_ne {α : Type} (l : List (String × α)) (k q : String) (v : α)
    (h : q ≠ k) : lookupA (setA l k v) q = lookupA l q := by
  have h2 : ¬(k = q) := fun hh => h hh.symm
  induction l with
  | nil => simp [setA, lookupA, h2]
  | cons kv rest ih =>
      by_cases hk : kv.1 = k
      · simp [setA, lookupA, hk, h2]
      · by_cases hq : kv.1 = q
        · simp [setA, lookupA, hk, hq, h]
        · simp [setA, lookupA, hk, hq, ih]

theorem setA_fresh {α : Type} (l : List (String × α)) (k : String) (v : α)
    (h : lookupA l k = none) : setA l k v = l ++ [(k, v)] := by
  induction l with
  | nil => simp [setA]
  | cons kv rest ih =>
      by_cases hk : kv.1 = k
      · simp [lookupA, hk] at h
      · simp only [lookupA, beq_iff_eq, hk, if_false] at h
        simp [setA, hk, ih h]

theorem lookupA_append_right {α : Type} (l1 l2 : List (String × α)) (k : String)
    (h : lookupA l1 k = none) : lookupA (l1 ++ l2) k = lookupA l2 k := by
  induction l1 with
  | nil => simp
  | cons kv rest ih =>
      by_cases hk : kv.1 = k
      · simp [lookupA, hk] at h
      · simp only [lookupA, beq_iff_eq, hk, if_false] at h
        simp [lookupA, hk, ih h]

theorem setA_append_self {α : Type} (l : List (String × α)) (k : String) (a b : α)
    (h : lookupA l k = none) : setA (l ++ [(k, a)]) k b = l ++ [(k, b)] := by
  induction l with
  | nil => simp [setA]
  | cons kv rest ih =>
      by_cases hk : kv.1 = k
      · simp [lookupA, hk] at h
      · simp only [lookupA, beq_iff_eq, hk, if_false] at h
        simp [setA, hk, ih h]

theorem copyFiles_error_manifest (fs : FS) (e : String) (d' : BackupDir) :
    ∀ (paths : List String) (dir : BackupDir) (entries : List (String × String)) (size : Nat),
    copyFiles fs dir entries size paths = .error (e, d') → d'.manifest = dir.manifest := by
  intro paths
  induction paths with
  | nil => intro dir entries size h; simp [copyFiles] at h
  | cons p rest ih =>
      intro dir entries size h
      cases hr : readFS fs p with
      | error e0 =>
          simp only [copyFiles, hr, Except.error.injEq, Prod.mk.injEq] at h
          rw [← h.2]
      | ok c =>
          simp only [copyFiles, hr] at h
          exact ih { dir with files := setA dir.files (baseName p) c }
            (entries ++ [(p, baseName p)]) (size + c.length) h

end Lemmas

/-- C1.  If `apply` is called with `shouldBackup = true` and the backup
creation fails, then the whole apply aborts: the result has `success =
false`, an empty modified set, zero changes and only the fixed backup error
entry, and the filesystem is returned exactly as it was — the backup step
strictly precedes any write. -/
theorem apply_aborts_on_backup_failure (E : RegexEngine) (fs : FS) (store store1 : BackupStore)
    (bid ts : String) (paths : List String) (find repl : String) (isRegex : Bool) (e : String)
    (herr : createBackup fs store bid ts paths = .error (e, store1)) :
    applyChanges E fs store bid ts paths find repl isRegex true =
      (⟨false, [], 0, none, [("backup", backupFailError)]⟩, fs, store1) := by
  simp [applyChanges, herr]

/-- Witness for C1 at a concrete input: the path list `["f1", "f2"]` where
`f2` does not exist, so the backup copy of `f2` fails; the apply returns the
backup failure outcome and the filesystem, including `f1`, is untouched. -/
theorem apply_aborts_on_backup_failure_witness :
    createBackup [("f1", ⟨"xa", false⟩)] [] "backup_x" "t" ["f1", "f2"] =
      .error ("ENOENT: no such file or directory",
              [("backup_x", ⟨[("f1", "xa")], none⟩)]) ∧
    applyChanges litEngine [("f1", ⟨"xa", false⟩)] [] "backup_x" "t" ["f1", "f2"] "a" "b"
        false true =
      (⟨false, [], 0, none, [("backup", backupFailError)]⟩,
       [("f1", ⟨"xa", false⟩)],
       [("backup_x", ⟨[("f1", "xa")], none⟩)]) :=
  ⟨rfl,
   apply_aborts_on_backup_failure litEngine [("f1", ⟨"xa", false⟩)] []
     [("backup_x", ⟨[("f1", "xa")], none⟩)] "backup_x" "t" ["f1", "f2"] "a" "b" false
     "ENOENT: no such file or directory" rfl⟩

/-- C2.  Backup creation is all-or-nothing: if any copy fails while creating
a snapshot under a fresh id, the error propagates, the snapshot directory is
left without a manifest, and the backup listing is exactly what it was before
the attempt — the failed snapshot is never enumerable. -/
theorem backup_create_all_or_nothing (fs : FS) (store store' : BackupStore)
    (bid ts e : String) (paths : List String)
    (hfresh : lookupA store bid = none)
    (herr : createBackup fs store bid ts paths = .error (e, store')) :
    (∃ d, lookupA store' bid = some d ∧ d.manifest = none) ∧
    listBackups store' = listBackups store := by
  simp only [createBackup, hfresh, Option.getD_none] at herr
  cases hcf : copyFiles fs ⟨[], none⟩ [] 0 paths with
  | error ep =>
      obtain ⟨e0, dirP⟩ := ep
      rw [hcf] at herr
      simp only [Except.error.injEq, Prod.mk.injEq] at herr
      have hman : dirP.manifest = none := copyFiles_error_manifest fs e0 dirP paths _ _ _ hcf
      have hstore0 : setA store bid (⟨[], none⟩ : BackupDir) = store ++ [(bid, ⟨[], none⟩)] :=
        setA_fresh store bid _ hfresh
      have hstore' : store' = store ++ [(bid, dirP)] := by
        rw [← herr.2, hstore0, setA_append_self store bid _ _ hfresh]
      constructor
      · refine ⟨dirP, ?_, hman⟩
        rw [hstore', lookupA_append_right store _ bid hfresh]
        simp [lookupA]
      · rw [hstore']
        simp only [listBackups, List.filterMap_append]
        have hnone : List.filterMap (fun nd =>
            if nd.1.startsWith "backup_" then
              match nd.2.manifest with
              | some m =>
                  some (⟨m.id, m.timestamp, m.files.map Prod.fst,
                        (m.files.map (fun f => entrySize nd.2 f.2)).sum⟩ : Backup)
              | none => none
            else none) [(bid, dirP)] = [] := by
          simp [List.filterMap, hman]
        rw [hnone, List.append_nil]
  | ok res =>
      rw [hcf] at herr
      simp at herr

/-- Witness for C2 at a concrete input: creating `backup_x` over
`["f1", "f2"]` where `f2` does not exist fails on the copy of `f2`; the
partially filled snapshot directory has no manifest and the listing stays
empty. -/
theorem backup_create_all_or_nothing_witness :
    lookupA ([] : BackupStore) "backup_x" = none ∧
    createBackup [("f1", ⟨"xa", false⟩)] [] "backup_x" "t" ["f1", "f2"] =
      .error ("ENOENT: no such file or directory",
              [("backup_x", ⟨[("f1", "xa")], none⟩)]) ∧
    ((∃ d, lookupA [("backup_x", (⟨[("f1", "xa")], none⟩ : BackupDir))] "backup_x" = some d ∧
        d.manifest = none) ∧
     listBackups [("backup_x", ⟨[("f1", "xa")], none⟩)] = listBackups []) :=
  ⟨rfl, rfl,
   backup_create_all_or_nothing [("f1", ⟨"xa", false⟩)] []
     [("backup_x", ⟨[("f1", "xa")], none⟩)] "backup_x" "t"
     "ENOENT: no such file or directory" ["f1", "f2"] rfl rfl⟩

/-- C10.  Preview is faithful to apply: for every engine, file content,
pattern, replacement and mode, the (match count, candidate text) pair that
the preview path computes is exactly the pair the apply path computes — the
two code paths implement the same substitution function. -/
theorem preview_matches_apply (E : RegexEngine) (content find repl : String) (isRegex : Bool) :
    previewSubstitute E content find repl isRegex = applySubstitute E content find repl isRegex :=
  rfl

section SubstitutionLemmas

theorem stringMk_data (s : String) : String.mk s.data = s := rfl

theorem intercalate_singleton {α : Type} (sep : List α) (x : List α) :
    List.intercalate sep [x] = x := by
  simp [List.intercalate]

theorem countOccGo_zero_splitGo (pat : List Char) :
    ∀ cs skip, countOccGo pat cs skip = 0 → splitGo pat cs skip = [List.drop skip cs] := by
  intro cs
  induction cs with
  | nil => intro skip h; simp [splitGo]
  | cons c rest ih =>
      intro skip h
      cases skip with
      | zero =>
          by_cases hp : pat ≠ [] ∧ pat.isPrefixOf (c :: rest) = true
          · rw [countOccGo, if_pos hp] at h
            omega
          · rw [countOccGo, if_neg hp] at h
            rw [splitGo, if_neg hp, ih 0 h]
            simp
      | succ k =>
          rw [countOccGo] at h
          rw [splitGo, ih k h, List.drop_succ_cons]

theorem countOccL_zero_splitL (pat cs : List Char) (h : countOccL pat cs = 0) :
    splitL pat cs = [cs] := by
  have := countOccGo_zero_splitGo pat cs 0 h
  simpa [splitL] using this

end SubstitutionLemmas

/-- C9 counterexample.  The claim asserts the first two applications of a
literal substitution yield the *same* change count; for content `"a"`, find
`"a"`, replacement `"b"` (whose replacement does not re-introduce the search
text), the first application counts 1 change and the second counts 0. -/
theorem literal_change_counts_differ :
    jsLiteralCount "a".data ((applySubstitute litEngine "a" "a" "b" false).2).data = 0 ∧
    (applySubstitute litEngine "a" "a" "b" false).1 = 1 ∧
    (applySubstitute litEngine (applySubstitute litEngine "a" "a" "b" false).2
       "a" "b" false).1 = 0 ∧
    (applySubstitute litEngine "a" "a" "b" false).1 ≠
      (applySubstitute litEngine (applySubstitute litEngine "a" "a" "b" false).2
        "a" "b" false).1 := by
  refine ⟨rfl, rfl, rfl, by decide⟩

/-- C9 (amended).  Literal substitution stabilizes after one application:
when the substituted text contains no further occurrence of the search text,
the second application yields zero changes and leaves the text unchanged, and
so does a third — so the cumulative change count after two applications
equals that after one, and a third application reports zero. -/
theorem literal_substitution_stabilizes (E : RegexEngine) (c f r : String)
    (h : jsLiteralCount f.data ((applySubstitute E c f r false).2).data = 0) :
    (applySubstitute E (applySubstitute E c f r false).2 f r false).1 = 0 ∧
    (applySubstitute E (applySubstitute E c f r false).2 f r false).2 =
      (applySubstitute E c f r false).2 ∧
    (applySubstitute E
        (applySubstitute E (applySubstitute E c f r false).2 f r false).2 f r false).1 = 0 := by
  have hfne : f.data ≠ [] := by
    intro hf
    rw [jsLiteralCount, if_pos hf] at h
    omega
  have hcnt : countOccL f.data ((applySubstitute E c f r false).2).data = 0 := by
    rw [jsLiteralCount, if_neg hfne] at h
    exact h
  have hsub : applySubstitute E (applySubstitute E c f r false).2 f r false =
      (0, (applySubstitute E c f r false).2) := by
    show (jsLiteralCount f.data ((applySubstitute E c f r false).2).data,
          String.mk (jsSplitJoin f.data r.data ((applySubstitute E c f r false).2).data)) = _
    rw [jsLiteralCount, if_neg hfne, hcnt]
    rw [jsSplitJoin, if_neg hfne, countOccL_zero_splitL f.data _ hcnt,
        intercalate_singleton, stringMk_data]
  refine ⟨by rw [hsub], by rw [hsub], ?_⟩
  rw [hsub]
  show jsLiteralCount f.data ((applySubstitute E c f r false).2).data = 0
  exact h

/-- Witness for C9's amended theorem at content `"a"`, find `"a"`,
replacement `"b"`: the substituted text `"b"` contains no `"a"`, so the
second and third applications report zero changes and do not change the
text. -/
theorem literal_substitution_stabilizes_witness :
    jsLiteralCount "a".data ((applySubstitute litEngine "a" "a" "b" false).2).data = 0 ∧
    ((applySubstitute litEngine (applySubstitute litEngine "a" "a" "b" false).2
        "a" "b" false).1 = 0 ∧
     (applySubstitute litEngine (applySubstitute litEngine "a" "a" "b" false).2
        "a" "b" false).2 = (applySubstitute litEngine "a" "a" "b" false).2 ∧
     (applySubstitute litEngine
        (applySubstitute litEngine (applySubstitute litEngine "a" "a" "b" false).2
          "a" "b" false).2 "a" "b" false).1 = 0) :=
  ⟨rfl, literal_substitution_stabilizes litEngine "a" "a" "b" rfl⟩

section ExpansionLemmas

theorem expandRepl_no_dollar (m b a : List Char) (caps : List (Option String)) :
    ∀ r, r.contains '$' = false → expandRepl m b a caps r = r
  | [], _ => rfl
  | [c], h => by
      have hc : (c == '$') = false := by
        simp only [List.contains_cons, Bool.or_eq_false_iff] at h
        rw [beq_eq_false_iff_ne] at h ⊢
        exact fun hh => h.1 hh.symm
      rw [expandRepl.eq_def]
      simp [hc]
  | c :: d :: r2, h => by
      have hs : ('$' == c) = false ∧ List.contains (d :: r2) '$' = false := by
        simpa only [List.contains_cons, Bool.or_eq_false_iff] using h
      have hc : (c == '$') = false := by
        rw [beq_eq_false_iff_ne] at hs ⊢
        exact fun hh => hs.1 hh.symm
      rw [expandRepl.eq_def]
      simp [hc, expandRepl_no_dollar m b a caps (d :: r2) hs.2]

theorem replaceSpansGo_no_dollar (full repl : List Char) (h : repl.contains '$' = false) :
    ∀ (spans : List MatchSpan) (pos : Nat),
      replaceSpansGo full repl pos spans = replaceSpansLit full repl pos spans := by
  intro spans
  induction spans with
  | nil => intro pos; rfl
  | cons sp rest ih =>
      intro pos
      rw [replaceSpansGo, replaceSpansLit, expandRepl_no_dollar _ _ _ _ _ h, ih]

end ExpansionLemmas

/-- C5 counterexample.  The claim asserts the replacement text is inserted
literally in structured (regex) mode, naming `$&` and `$1` as examples; but
`"ab".replace(/a/g, "$&$&")` gives `"aab"` — `$&` expands to the matched text
— where literal insertion would give `"$&$&b"`; and for the validated
pattern `(cursor)-pointer` (accepted by `validateRegex`, since only `(?`
groups are banned) the replacement `$1` expands to the captured text
`cursor`, where literal insertion would keep `$1`. -/
theorem regex_replacement_expands_dollar :
    (applySubstitute litEngine "ab" "a" "$&$&" true).2 = "aab" ∧
    String.mk (replaceSpansLit "ab".data "$&$&".data 0 (litEngine "a" "ab")) = "$&$&b" ∧
    ("aab" : String) ≠ "$&$&b" ∧
    validateRegex compileAll "(cursor)-pointer".data = ⟨true, none⟩ ∧
    (applySubstitute cursorGroupEngine "x cursor-pointer y" "(cursor)-pointer" "$1" true).2 =
      "x cursor y" ∧
    String.mk (replaceSpansLit "x cursor-pointer y".data "$1".data 0
      (cursorGroupEngine "(cursor)-pointer" "x cursor-pointer y")) = "x $1 y" ∧
    ("x cursor y" : String) ≠ "x $1 y" :=
  ⟨rfl, rfl, by decide, rfl, rfl, rfl, by decide⟩

/-- C5 (amended).  In structured (regex) mode the replacement string is
subject to the dollar-sequence expansion of the host `String.replace`: `$$`
is a literal dollar, `$&` the matched text, a dollar-backquote / dollar-quote
the text before / after the match, and `$n` the nth capture group when the
pattern has at least `n` groups — so `$1` against the validated pattern
`(cursor)-pointer` inserts `cursor` — while a `$n` naming no existing group
stays literal.  A replacement containing no `$` at all is inserted verbatim
at every match. -/
theorem regex_replacement_dollar_expansion :
    (∀ (E : RegexEngine) (c f r : String), r.data.contains '$' = false →
      applySubstitute E c f r true =
        ((E f c).length, String.mk (replaceSpansLit c.data r.data 0 (E f c)))) ∧
    (applySubstitute litEngine "ab" "a" "$&$&" true).2 = "aab" ∧
    (applySubstitute cursorGroupEngine "x cursor-pointer y" "(cursor)-pointer" "$1" true).2 =
      "x cursor y" ∧
    (applySubstitute cursorGroupEngine "x cursor-pointer y" "(cursor)-pointer" "$2" true).2 =
      "x $2 y" ∧
    (applySubstitute cursorGroupEngine "x cursor-pointer y" "(cursor)-pointer" "$$1" true).2 =
      "x $1 y" := by
  refine ⟨?_, rfl, rfl, rfl, rfl⟩
  intro E c f r h
  show ((E f c).length, String.mk (replaceSpansGo c.data r.data 0 (E f c))) = _
  rw [replaceSpansGo_no_dollar c.data r.data h]

/-- Witness for C5's amended theorem: replacing `"a"` with the dollar-free
replacement `"x"` in `"ab"` inserts `"x"` verbatim, yielding `"xb"`. -/
theorem regex_replacement_dollar_expansion_witness :
    ("x" : String).data.contains '$' = false ∧
    applySubstitute litEngine "ab" "a" "x" true =
      ((litEngine "a" "ab").length,
       String.mk (replaceSpansLit "ab".data "x".data 0 (litEngine "a" "ab"))) ∧
    (applySubstitute litEngine "ab" "a" "x" true).2 = "xb" :=
  ⟨by decide, regex_replacement_dollar_expansion.1 litEngine "ab" "a" "x" (by decide), rfl⟩

section RestoreLemmas

theorem restoreLoop_append (dir : BackupDir) :
    ∀ (pre : List (String × String)) (fs fs1 : FS) (restored res1 : List String)
      (tail : List (String × String)),
      restoreLoop dir fs restored pre = .ok (res1, fs1) →
      restoreLoop dir fs restored (pre ++ tail) = restoreLoop dir fs1 res1 tail := by
  intro pre
  induction pre with
  | nil =>
      intro fs fs1 restored res1 tail h
      simp only [restoreLoop, Except.ok.injEq, Prod.mk.injEq] at h
      rw [List.nil_append, h.1, h.2]
  | cons ent pre' ih =>
      intro fs fs1 restored res1 tail h
      obtain ⟨o2, b2⟩ := ent
      cases hb : lookupA dir.files b2 with
      | none =>
          simp only [restoreLoop, hb] at h
          rw [List.cons_append, restoreLoop, hb]
          exact ih fs fs1 restored res1 tail h
      | some c2 =>
          cases hw : writeFS fs o2 c2 with
          | error e2 =>
              simp only [restoreLoop, hb, hw] at h
              exact Except.noConfusion h
          | ok fs' =>
              simp only [restoreLoop, hb, hw] at h
              simp only [List.cons_append, restoreLoop, hb, hw]
              exact ih fs' fs1 (restored ++ [o2]) res1 tail h

end RestoreLemmas

/-- C7 counterexample.  The claim asserts a failure on one manifest entry
does not block the remaining entries; but with a 2-entry manifest where
restoring `pa` fails (its target refuses writes), `restoreBackup` throws
immediately and `pb` is left at its current content `"cur2"`, not restored to
its snapshot content `"old2"`. -/
theorem restore_stops_at_failed_entry :
    restoreBackup [("pa", ⟨"cur1", true⟩), ("pb", ⟨"cur2", false⟩)]
        [("backup_1", ⟨[("a.tsx", "old1"), ("b.tsx", "old2")],
          some ⟨"backup_1", "t", [("pa", "a.tsx"), ("pb", "b.tsx")]⟩⟩)] "backup_1" =
      .error ("EACCES: permission denied",
              [("pa", ⟨"cur1", true⟩), ("pb", ⟨"cur2", false⟩)]) ∧
    readFS [("pa", ⟨"cur1", true⟩), ("pb", ⟨"cur2", false⟩)] "pb" = .ok "cur2" ∧
    ("cur2" : String) ≠ "old2" :=
  ⟨rfl, rfl, by decide⟩

/-- C7 (amended).  During restore, a failure on one manifest entry aborts the
whole restore: the error is rethrown with the filesystem as of the failure,
entries after the failing one are never attempted, and the entries already
restored before it are kept (not rolled back).  (Entries whose snapshot copy
is missing are skipped silently.) -/
theorem restore_aborts_on_entry_failure (fs fs1 : FS) (store : BackupStore)
    (bid : String) (dir : BackupDir) (m : Manifest)
    (pre post : List (String × String)) (orig bpath c e : String) (res1 : List String)
    (hstore : lookupA store bid = some dir)
    (hman : dir.manifest = some m)
    (hfiles : m.files = pre ++ (orig, bpath) :: post)
    (hpre : restoreLoop dir fs [] pre = .ok (res1, fs1))
    (hbp : lookupA dir.files bpath = some c)
    (hw : writeFS fs1 orig c = .error e) :
    restoreBackup fs store bid = .error (e, fs1) := by
  have hloop : restoreLoop dir fs [] m.files = .error (e, fs1) := by
    rw [hfiles, restoreLoop_append dir pre fs fs1 [] res1 _ hpre]
    simp only [restoreLoop, hbp, hw]
  simp only [restoreBackup, hstore, hman, hloop]

/-- Witness for C7's amended theorem: a 2-entry manifest whose first entry
restores fine and whose second entry's target refuses writes; the restore
aborts with the first entry already restored. -/
theorem restore_aborts_on_entry_failure_witness :
    lookupA [("backup_1", (⟨[("a.tsx", "old1"), ("b.tsx", "old2")],
        some ⟨"backup_1", "t", [("pa", "a.tsx"), ("pb", "b.tsx")]⟩⟩ : BackupDir))] "backup_1" =
      some ⟨[("a.tsx", "old1"), ("b.tsx", "old2")],
        some ⟨"backup_1", "t", [("pa", "a.tsx"), ("pb", "b.tsx")]⟩⟩ ∧
    restoreBackup [("pa", ⟨"cur1", false⟩), ("pb", ⟨"cur2", true⟩)]
        [("backup_1", ⟨[("a.tsx", "old1"), ("b.tsx", "old2")],
          some ⟨"backup_1", "t", [("pa", "a.tsx"), ("pb", "b.tsx")]⟩⟩)] "backup_1" =
      .error ("EACCES: permission denied",
              [("pa", ⟨"old1", false⟩), ("pb", ⟨"cur2", true⟩)]) :=
  ⟨rfl,
   restore_aborts_on_entry_failure
     [("pa", ⟨"cur1", false⟩), ("pb", ⟨"cur2", true⟩)]
     [("pa", ⟨"old1", false⟩), ("pb", ⟨"cur2", true⟩)]
     [("backup_1", ⟨[("a.tsx", "old1"), ("b.tsx", "old2")],
       some ⟨"backup_1", "t", [("pa", "a.tsx"), ("pb", "b.tsx")]⟩⟩)]
     "backup_1"
     ⟨[("a.tsx", "old1"), ("b.tsx", "old2")],
      some ⟨"backup_1", "t", [("pa", "a.tsx"), ("pb", "b.tsx")]⟩⟩
     ⟨"backup_1", "t", [("pa", "a.tsx"), ("pb", "b.tsx")]⟩
     [("pa", "a.tsx")] [] "pb" "b.tsx" "old2" "EACCES: permission denied" ["pa"]
     rfl rfl rfl rfl rfl rfl⟩

/-- C4 counterexample.  The claim asserts wildcard rejection applies only to
two or more *consecutive* unbounded wildcards, so that `a.*b` — one `.*`,
none of the other rejection causes, and compiling fine — is accepted; but
`isRegexSafe` rejects any occurrence of `.*`, so `validateRegex` rejects it
with the safety-rejection message. -/
theorem single_wildcard_rejected :
    validateRegex compileAll "a.*b".data = ⟨false, some unsafeError⟩ ∧
    isRegexDangerous "a.*b".data = false ∧
    listContains ".*.*".data "a.*b".data = false ∧
    countQuantifiers "a.*b".data = 1 ∧
    compileAll "a.*b".data = .ok () :=
  ⟨rfl, rfl, rfl, rfl, rfl⟩

/-- C4 (amended).  `validateRegex` rejects the listed shapes — `(a+)+`, a
backreference `\1`, alternation `a|b`, patterns over 500 characters, 11 or
more quantifiers, and the ranges `{5,2}` / `{0,150}` — but its wildcard
rejection is stricter than claimed: any occurrence of `.*` or `.+`, even a
single one, is a safety rejection (and so is any non-printable or non-ASCII
character, via `isRegexSafe`).  Any pattern passing both safety predicates is
accepted iff it compiles, and a compile failure surfaces the engine's own
message rather than either fixed safety-rejection message. -/
theorem validate_characterization :
    (∀ compile, (validateRegex compile "(a+)+".data).valid = false) ∧
    (∀ compile, (validateRegex compile "\\1".data).valid = false) ∧
    (∀ compile, (validateRegex compile "a|b".data).valid = false) ∧
    (∀ compile, (validateRegex compile (List.replicate 501 'a')).valid = false) ∧
    (∀ compile, (validateRegex compile "a?a?a?a?a?a?a?a?a?a?a?".data).valid = false) ∧
    (∀ compile, (validateRegex compile "a\x7b5,2\x7d".data).valid = false) ∧
    (∀ compile, (validateRegex compile "a\x7b0,150\x7d".data).valid = false) ∧
    (∀ compile, (validateRegex compile "a.*b".data) = ⟨false, some unsafeError⟩) ∧
    (∀ compile, (validateRegex compile "a.+b".data) = ⟨false, some unsafeError⟩) ∧
    (∀ compile p, isRegexDangerous p = false → isRegexSafe p = true →
      compile p = Except.ok () → validateRegex compile p = ⟨true, none⟩) ∧
    (∀ compile p e, isRegexDangerous p = false → isRegexSafe p = true →
      compile p = Except.error e → validateRegex compile p = ⟨false, some e⟩) := by
  refine ⟨fun _ => rfl, fun _ => rfl, fun _ => rfl, fun _ => rfl, fun _ => rfl,
    fun _ => rfl, fun _ => rfl, fun _ => rfl, fun _ => rfl, ?_, ?_⟩
  · intro compile p hd hs hc
    simp [validateRegex, hd, hs, hc]
  · intro compile p e hd hs hc
    simp [validateRegex, hd, hs, hc]

/-- Witness for C4's amended theorem: the acceptance branch at the literal
pattern `cursor-pointer` under an always-compiling oracle, and the
compile-failure branch at the safe-looking pattern `abc` under an oracle that
fails with its own message. -/
theorem validate_characterization_witness :
    (isRegexDangerous "cursor-pointer".data = false ∧
     isRegexSafe "cursor-pointer".data = true ∧
     compileAll "cursor-pointer".data = Except.ok () ∧
     validateRegex compileAll "cursor-pointer".data = ⟨true, none⟩) ∧
    (isRegexDangerous "abc".data = false ∧
     isRegexSafe "abc".data = true ∧
     (fun (_ : List Char) => (Except.error "engine message" : Except String Unit)) "abc".data =
       Except.error "engine message" ∧
     validateRegex (fun _ => Except.error "engine message") "abc".data =
       ⟨false, some "engine message"⟩) :=
  ⟨⟨by decide, by decide, rfl,
    validate_characterization.2.2.2.2.2.2.2.2.2.1 compileAll "cursor-pointer".data
      (by decide) (by decide) rfl⟩,
   ⟨by decide, by decide, rfl,
    validate_characterization.2.2.2.2.2.2.2.2.2.2 (fun _ => Except.error "engine message")
      "abc".data "engine message" (by decide) (by decide) rfl⟩⟩

section DiffLemmas

theorem diffL_replace_parts (c l s x y z : String)
    (h1 : l ≠ x) (h2 : l ≠ y) (h3 : l ≠ z) (h4 : l ≠ s)
    (h5 : s ≠ x) (h6 : s ≠ y) (h7 : s ≠ z) :
    diffL [c, l, s] [c, x, y, z, s] =
      [(DKind.keep, c), (DKind.del, l), (DKind.ins, x), (DKind.ins, y),
       (DKind.ins, z), (DKind.keep, s)] := by
  simp [diffL, lcsLen, h1, h2, h3, h4, h5, h6, h7]

theorem countChanges_replace_example :
    countChanges "k\na\ns\n" "k\nx\ny\nz\ns\n" = 2 := by
  simp [countChanges, toLines, slkGo, diffL, lcsLen, countRunsGo]

end DiffLemmas

/-- C6 counterexample.  The claim asserts every pair of texts where one line
is replaced by three consecutive new lines has `changeCount = 1`; for the
texts `"k\na\ns\n"` and `"k\nx\ny\nz\ns\n"` — line `a` replaced by the three
new lines `x`, `y`, `z` — `countChanges` returns 2: the removed line is one
added/removed part and the three inserted lines another. -/
theorem replacement_change_count_is_two :
    countChanges "k\na\ns\n" "k\nx\ny\nz\ns\n" = 2 ∧ (2 : Nat) ≠ 1 :=
  ⟨countChanges_replace_example, by decide⟩

/-- C6 (amended).  The diff change count counts contiguous added runs and
contiguous removed runs each as one change location: replacing one line with
three consecutive new lines yields one removed run plus one added run, so
`changeCount = 2`, while a pure insertion of five consecutive lines after a
common line still counts as one change location. -/
theorem diff_counts_contiguous_runs :
    (∀ c l s x y z : String, l ≠ x → l ≠ y → l ≠ z → l ≠ s → s ≠ x → s ≠ y → s ≠ z →
      countRunsGo none (diffL [c, l, s] [c, x, y, z, s]) = 2) ∧
    (∀ c v w x y z : String, countRunsGo none (diffL [c] [c, v, w, x, y, z]) = 1) ∧
    countChanges "k\na\ns\n" "k\nx\ny\nz\ns\n" = 2 ∧
    countChanges "k\n" "k\nv\nw\nx\ny\nz\n" = 1 := by
  refine ⟨?_, ?_, countChanges_replace_example, ?_⟩
  · intro c l s x y z h1 h2 h3 h4 h5 h6 h7
    rw [diffL_replace_parts c l s x y z h1 h2 h3 h4 h5 h6 h7]
    rfl
  · intro c v w x y z
    simp [diffL, countRunsGo]
  · simp [countChanges, toLines, slkGo, diffL, countRunsGo]

/-- Witness for C6's amended theorem at six concrete, pairwise suitably
distinct lines: the replacement shape yields 2 change locations and the pure
insertion shape yields 1. -/
theorem diff_counts_contiguous_runs_witness :
    (("l" : String) ≠ "x" ∧ ("l" : String) ≠ "y" ∧ ("l" : String) ≠ "z" ∧
     ("l" : String) ≠ "s" ∧ ("s" : String) ≠ "x" ∧ ("s" : String) ≠ "y" ∧
     ("s" : String) ≠ "z") ∧
    countRunsGo none (diffL ["c", "l", "s"] ["c", "x", "y", "z", "s"]) = 2 ∧
    countRunsGo none (diffL ["c"] ["c", "v", "w", "x", "y", "z"]) = 1 :=
  ⟨⟨by decide, by decide, by decide, by decide, by decide, by decide, by decide⟩,
   diff_counts_contiguous_runs.1 "c" "l" "s" "x" "y" "z"
     (by decide) (by decide) (by decide) (by decide) (by decide) (by decide) (by decide),
   diff_counts_contiguous_runs.2.1 "c" "v" "w" "x" "y" "z"⟩

section ApplyLoopLemmas

theorem writeFS_ok_of_canWrite (fs : FS) (p c : String) (h : canWrite fs p = true) :
    writeFS fs p c = .ok (setA fs p ⟨c, false⟩) := by
  unfold canWrite at h
  unfold writeFS
  cases hl : lookupA fs p with
  | some e =>
      simp only [hl] at h ⊢
      have he : e.writeFails = false := by simpa using h
      simp [he]
  | none => simp [hl]

theorem writeFS_error_of_not_canWrite (fs : FS) (p c : String) (h : canWrite fs p = false) :
    writeFS fs p c = .error "EACCES: permission denied" := by
  unfold canWrite at h
  unfold writeFS
  cases hl : lookupA fs p with
  | some e =>
      simp only [hl] at h ⊢
      have he : e.writeFails = true := by simpa using h
      simp [he]
  | none => simp [hl] at h

theorem writeFS_ok_lookup_ne (fs : FS) (p c : String) (fs1 : FS)
    (h : writeFS fs p c = .ok fs1) (q : String) (hq : q ≠ p) :
    lookupA fs1 q = lookupA fs q := by
  cases hl : lookupA fs p with
  | some e =>
      simp only [writeFS, hl] at h
      by_cases hw : e.writeFails
      · simp [hw] at h
      · simp only [hw, if_false, Bool.false_eq_true, Except.ok.injEq] at h
        rw [← h]
        exact lookupA_setA_ne fs p q _ hq
  | none =>
      simp only [writeFS, hl, Except.ok.injEq] at h
      rw [← h]
      exact lookupA_setA_ne fs p q _ hq

theorem applyLoop_untouched (E : RegexEngine) (f r : String) (m : Bool) :
    ∀ (paths : List String) (fs : FS) (q : String), q ∉ paths →
      lookupA (applyLoop E f r m fs paths).fs q = lookupA fs q := by
  intro paths
  induction paths with
  | nil => intro fs q _; rfl
  | cons p rest ih =>
      intro fs q hq
      have hqp : q ≠ p ∧ q ∉ rest := by
        constructor
        · intro hh; exact hq (hh ▸ List.mem_cons_self p rest)
        · intro hh; exact hq (List.mem_cons_of_mem p hh)
      cases hre : readFS fs p with
      | error e =>
          simp only [applyLoop, hre]
          exact ih fs q hqp.2
      | ok c =>
          by_cases hcnt : 0 < (applySubstitute E c f r m).1
          · cases hwr : writeFS fs p (applySubstitute E c f r m).2 with
            | error e =>
                simp only [applyLoop, hre, if_pos hcnt, hwr]
                exact ih fs q hqp.2
            | ok fs1 =>
                simp only [applyLoop, hre, if_pos hcnt, hwr]
                rw [ih fs1 q hqp.2]
                exact writeFS_ok_lookup_ne fs p _ fs1 hwr q hqp.1
          · simp only [applyLoop, hre, if_neg hcnt]
            exact ih fs q hqp.2

theorem pathFate_congr (E : RegexEngine) (f r : String) (m : Bool) (fs1 fs2 : FS)
    (out : LoopOut) (q : String) (h : lookupA fs1 q = lookupA fs2 q)
    (hf : pathFate E f r m fs1 out q) : pathFate E f r m fs2 out q := by
  have hr : readFS fs2 q = readFS fs1 q := by unfold readFS; rw [h]
  have hw : canWrite fs2 q = canWrite fs1 q := by unfold canWrite; rw [h]
  unfold pathFate at hf ⊢
  rw [hr, hw]
  exact hf

theorem pathFate_cons_error (E : RegexEngine) (f r : String) (m : Bool) (fs : FS)
    (out : LoopOut) (p q e : String) (ch : Nat) (hne : q ≠ p)
    (h : pathFate E f r m fs out q) :
    pathFate E f r m fs ⟨out.modified, (p, e) :: out.errors, ch, out.fs⟩ q := by
  unfold pathFate at h ⊢
  cases hre : readFS fs q with
  | error e0 =>
      simp only [hre] at h ⊢
      exact ⟨by simp [List.mem_cons, h.1], h.2⟩
  | ok c =>
      simp only [hre] at h ⊢
      by_cases hcnt : 0 < (applySubstitute E c f r m).1
      · rw [if_pos hcnt] at h ⊢
        by_cases hcw : canWrite fs q
        · rw [if_pos hcw] at h ⊢
          exact ⟨h.1, by simp [List.mem_cons, hne, h.2.1], h.2.2⟩
        · rw [if_neg hcw] at h ⊢
          exact ⟨by simp [List.mem_cons, h.1], h.2⟩
      · rw [if_neg hcnt] at h ⊢
        exact ⟨h.1, by simp [List.mem_cons, hne, h.2.1], h.2.2⟩

theorem pathFate_cons_mod (E : RegexEngine) (f r : String) (m : Bool) (fs : FS)
    (out : LoopOut) (p q : String) (ch : Nat) (hne : q ≠ p)
    (h : pathFate E f r m fs out q) :
    pathFate E f r m fs ⟨p :: out.modified, out.errors, ch, out.fs⟩ q := by
  unfold pathFate at h ⊢
  cases hre : readFS fs q with
  | error e0 =>
      simp only [hre] at h ⊢
      exact ⟨h.1, by simp [List.mem_cons, hne, h.2]⟩
  | ok c =>
      simp only [hre] at h ⊢
      by_cases hcnt : 0 < (applySubstitute E c f r m).1
      · rw [if_pos hcnt] at h ⊢
        by_cases hcw : canWrite fs q
        · rw [if_pos hcw] at h ⊢
          exact ⟨by simp [List.mem_cons, h.1], h.2.1, h.2.2⟩
        · rw [if_neg hcw] at h ⊢
          exact ⟨h.1, by simp [List.mem_cons, hne, h.2]⟩
      · rw [if_neg hcnt] at h ⊢
        exact ⟨by simp [List.mem_cons, hne, h.1], h.2.1, h.2.2⟩

end ApplyLoopLemmas

section ApplyLoopMain

theorem applyLoop_fates (E : RegexEngine) (f r : String) (m : Bool) :
    ∀ (paths : List String) (fs : FS), paths.Nodup →
      (∀ p ∈ paths, pathFate E f r m fs (applyLoop E f r m fs paths) p) ∧
      (∀ p ∈ (applyLoop E f r m fs paths).modified, p ∈ paths) ∧
      (∀ pe ∈ (applyLoop E f r m fs paths).errors, pe.1 ∈ paths) := by
  intro paths
  induction paths with
  | nil =>
      intro fs _
      exact ⟨by simp, by simp [applyLoop], by simp [applyLoop]⟩
  | cons p rest ih =>
      intro fs hnd
      have hp : p ∉ rest := (List.nodup_cons.mp hnd).1
      have hrest : rest.Nodup := (List.nodup_cons.mp hnd).2
      cases hre : readFS fs p with
      | error e =>
          have IH := ih fs hrest
          have hal : applyLoop E f r m fs (p :: rest) =
              ⟨(applyLoop E f r m fs rest).modified,
               (p, e) :: (applyLoop E f r m fs rest).errors,
               (applyLoop E f r m fs rest).changes,
               (applyLoop E f r m fs rest).fs⟩ := by
            simp only [applyLoop, hre]
          rw [hal]
          refine ⟨?_, ?_, ?_⟩
          · intro q hq
            rcases List.mem_cons.mp hq with rfl | hq2
            · simp only [pathFate, hre]
              exact ⟨by simp, fun hmem => hp (IH.2.1 _ hmem)⟩
            · have hqp : q ≠ p := fun hh => hp (hh ▸ hq2)
              exact pathFate_cons_error E f r m fs _ p q e _ hqp (IH.1 q hq2)
          · intro q hq
            exact List.mem_cons_of_mem _ (IH.2.1 q hq)
          · intro pe hpe
            rcases List.mem_cons.mp hpe with rfl | h2
            · exact List.mem_cons_self _ _
            · exact List.mem_cons_of_mem _ (IH.2.2 pe h2)
      | ok c =>
          by_cases hcnt : 0 < (applySubstitute E c f r m).1
          · by_cases hcw : canWrite fs p
            · have hwr : writeFS fs p (applySubstitute E c f r m).2 =
                  .ok (setA fs p ⟨(applySubstitute E c f r m).2, false⟩) :=
                writeFS_ok_of_canWrite fs p _ hcw
              have IH := ih (setA fs p ⟨(applySubstitute E c f r m).2, false⟩) hrest
              have hal : applyLoop E f r m fs (p :: rest) =
                  ⟨p :: (applyLoop E f r m
                          (setA fs p ⟨(applySubstitute E c f r m).2, false⟩) rest).modified,
                   (applyLoop E f r m
                     (setA fs p ⟨(applySubstitute E c f r m).2, false⟩) rest).errors,
                   (applySubstitute E c f r m).1 +
                     (applyLoop E f r m
                       (setA fs p ⟨(applySubstitute E c f r m).2, false⟩) rest).changes,
                   (applyLoop E f r m
                     (setA fs p ⟨(applySubstitute E c f r m).2, false⟩) rest).fs⟩ := by
                simp only [applyLoop, hre, if_pos hcnt, hwr]
              rw [hal]
              refine ⟨?_, ?_, ?_⟩
              · intro q hq
                rcases List.mem_cons.mp hq with rfl | hq2
                · simp only [pathFate, hre, if_pos hcnt, if_pos hcw]
                  refine ⟨List.mem_cons_self _ _, ?_, ?_⟩
                  · intro hmem
                    simp only [List.mem_map] at hmem
                    obtain ⟨pe, hpe, hfst⟩ := hmem
                    exact hp (hfst ▸ IH.2.2 pe hpe)
                  · have hun : lookupA (applyLoop E f r m
                        (setA fs q ⟨(applySubstitute E c f r m).2, false⟩) rest).fs q =
                        lookupA (setA fs q ⟨(applySubstitute E c f r m).2, false⟩) q :=
                      applyLoop_untouched E f r m rest _ q hp
                    simp [readFS, hun, lookupA_setA_self]
                · have hqp : q ≠ p := fun hh => hp (hh ▸ hq2)
                  have hcg : lookupA (setA fs p ⟨(applySubstitute E c f r m).2, false⟩) q =
                      lookupA fs q := lookupA_setA_ne fs p q _ hqp
                  exact pathFate_cons_mod E f r m fs _ p q _ hqp
                    (pathFate_congr E f r m _ fs _ q hcg (IH.1 q hq2))
              · intro q hq
                rcases List.mem_cons.mp hq with rfl | hq2
                · exact List.mem_cons_self _ _
                · exact List.mem_cons_of_mem _ (IH.2.1 q hq2)
              · intro pe hpe
                exact List.mem_cons_of_mem _ (IH.2.2 pe hpe)
            · have hwr : writeFS fs p (applySubstitute E c f r m).2 =
                  .error "EACCES: permission denied" :=
                writeFS_error_of_not_canWrite fs p _ (by simpa using hcw)
              have IH := ih fs hrest
              have hal : applyLoop E f r m fs (p :: rest) =
                  ⟨(applyLoop E f r m fs rest).modified,
                   (p, "EACCES: permission denied") :: (applyLoop E f r m fs rest).errors,
                   (applyLoop E f r m fs rest).changes,
                   (applyLoop E f r m fs rest).fs⟩ := by
                simp only [applyLoop, hre, if_pos hcnt, hwr]
              rw [hal]
              refine ⟨?_, ?_, ?_⟩
              · intro q hq
                rcases List.mem_cons.mp hq with rfl | hq2
                · simp only [pathFate, hre, if_pos hcnt, if_neg hcw]
                  exact ⟨by simp, fun hmem => hp (IH.2.1 _ hmem)⟩
                · have hqp : q ≠ p := fun hh => hp (hh ▸ hq2)
                  exact pathFate_cons_error E f r m fs _ p q _ _ hqp (IH.1 q hq2)
              · intro q hq
                exact List.mem_cons_of_mem _ (IH.2.1 q hq)
              · intro pe hpe
                rcases List.mem_cons.mp hpe with rfl | h2
                · exact List.mem_cons_self _ _
                · exact List.mem_cons_of_mem _ (IH.2.2 pe h2)
          · have hal : applyLoop E f r m fs (p :: rest) = applyLoop E f r m fs rest := by
              simp only [applyLoop, hre, if_neg hcnt]
            rw [hal]
            have IH := ih fs hrest
            refine ⟨?_, fun q hq => List.mem_cons_of_mem _ (IH.2.1 q hq),
              fun pe hpe => List.mem_cons_of_mem _ (IH.2.2 pe hpe)⟩
            intro q hq
            rcases List.mem_cons.mp hq with rfl | hq2
            · simp only [pathFate, hre, if_neg hcnt]
              refine ⟨fun hmem => hp (IH.2.1 _ hmem), ?_, ?_⟩
              · intro hmem
                simp only [List.mem_map] at hmem
                obtain ⟨pe, hpe, hfst⟩ := hmem
                exact hp (hfst ▸ IH.2.2 pe hpe)
              · have hun : lookupA (applyLoop E f r m fs rest).fs q = lookupA fs q :=
                  applyLoop_untouched E f r m rest fs q hp
                unfold readFS
                rw [hun]
                exact hre
            · exact IH.1 q hq2

end ApplyLoopMain

/-- C3.  Partial-failure isolation of `apply`, for a duplicate-free path
list and no backup: every path gets its `pathFate` — a read failure is
recorded as a per-path error without stopping the remaining paths, a path
with zero matches is neither reported modified nor errored and keeps its
content, a matched path is either rewritten and reported modified or (on
write failure) reported as a per-path error; the modified and error lists
mention only given paths; and the returned `success` is `true` iff the
per-path error list is empty.  The apply result exposes exactly the loop's
modified and error lists. -/
theorem apply_partial_failure_isolation (E : RegexEngine) (fs : FS) (store : BackupStore)
    (bid ts find repl : String) (m : Bool) (paths : List String) (hnd : paths.Nodup) :
    (∀ p ∈ paths, pathFate E find repl m fs (applyLoop E find repl m fs paths) p) ∧
    (∀ p ∈ (applyLoop E find repl m fs paths).modified, p ∈ paths) ∧
    (∀ pe ∈ (applyLoop E find repl m fs paths).errors, pe.1 ∈ paths) ∧
    ((applyChanges E fs store bid ts paths find repl m false).1.success = true ↔
      (applyChanges E fs store bid ts paths find repl m false).1.errors = []) ∧
    (applyChanges E fs store bid ts paths find repl m false).1.modified =
      (applyLoop E find repl m fs paths).modified ∧
    (applyChanges E fs store bid ts paths find repl m false).1.errors =
      (applyLoop E find repl m fs paths).errors := by
  have h := applyLoop_fates E find repl m paths fs hnd
  refine ⟨h.1, h.2.1, h.2.2, ?_, rfl, rfl⟩
  show (applyLoop E find repl m fs paths).errors.isEmpty = true ↔ _
  exact List.isEmpty_iff

/-- Witness for C3 at the spec's own scenario (3 target files, the 2nd
unreadable): paths `f1`, `f2`, `f3` where `f2` does not exist; `f1` and `f3`
match the literal find `"a"`. -/
theorem apply_partial_failure_isolation_witness :
    (["f1", "f2", "f3"] : List String).Nodup ∧
    ((∀ p ∈ ["f1", "f2", "f3"], pathFate litEngine "a" "b" false
        [("f1", ⟨"xa", false⟩), ("f3", ⟨"aa", false⟩)]
        (applyLoop litEngine "a" "b" false [("f1", ⟨"xa", false⟩), ("f3", ⟨"aa", false⟩)]
          ["f1", "f2", "f3"]) p) ∧
     (∀ p ∈ (applyLoop litEngine "a" "b" false [("f1", ⟨"xa", false⟩), ("f3", ⟨"aa", false⟩)]
          ["f1", "f2", "f3"]).modified, p ∈ ["f1", "f2", "f3"]) ∧
     (∀ pe ∈ (applyLoop litEngine "a" "b" false [("f1", ⟨"xa", false⟩), ("f3", ⟨"aa", false⟩)]
          ["f1", "f2", "f3"]).errors, pe.1 ∈ ["f1", "f2", "f3"]) ∧
     ((applyChanges litEngine [("f1", ⟨"xa", false⟩), ("f3", ⟨"aa", false⟩)] [] "b" "t"
          ["f1", "f2", "f3"] "a" "b" false false).1.success = true ↔
       (applyChanges litEngine [("f1", ⟨"xa", false⟩), ("f3", ⟨"aa", false⟩)] [] "b" "t"
          ["f1", "f2", "f3"] "a" "b" false false).1.errors = []) ∧
     (applyChanges litEngine [("f1", ⟨"xa", false⟩), ("f3", ⟨"aa", false⟩)] [] "b" "t"
          ["f1", "f2", "f3"] "a" "b" false false).1.modified =
       (applyLoop litEngine "a" "b" false [("f1", ⟨"xa", false⟩), ("f3", ⟨"aa", false⟩)]
          ["f1", "f2", "f3"]).modified ∧
     (applyChanges litEngine [("f1", ⟨"xa", false⟩), ("f3", ⟨"aa", false⟩)] [] "b" "t"
          ["f1", "f2", "f3"] "a" "b" false false).1.errors =
       (applyLoop litEngine "a" "b" false [("f1", ⟨"xa", false⟩), ("f3", ⟨"aa", false⟩)]
          ["f1", "f2", "f3"]).errors) :=
  ⟨by decide,
   apply_partial_failure_isolation litEngine [("f1", ⟨"xa", false⟩), ("f3", ⟨"aa", false⟩)]
     [] "b" "t" "a" "b" false ["f1", "f2", "f3"] (by decide)⟩

section TemplateLemmas

theorem mem_pushUnique (acc : List String) (p q : String) :
    q ∈ pushUnique acc p ↔ q ∈ acc ∨ q = p := by
  unfold pushUnique
  by_cases h : acc.contains p
  · have hp : p ∈ acc := by simpa using h
    rw [if_pos h]
    constructor
    · exact Or.inl
    · rintro (hq | rfl)
      · exact hq
      · exact hp
  · rw [if_neg h]
    simp [List.mem_append]

theorem nodup_pushUnique (acc : List String) (p : String) (h : acc.Nodup) :
    (pushUnique acc p).Nodup := by
  unfold pushUnique
  by_cases hc : acc.contains p
  · rwa [if_pos hc]
  · rw [if_neg hc]
    have hp : p ∉ acc := by simpa using hc
    simp [List.nodup_append, h, hp]

theorem mem_foldl_pushUnique (l : List String) :
    ∀ (acc : List String) (q : String),
      q ∈ l.foldl pushUnique acc ↔ q ∈ acc ∨ q ∈ l := by
  induction l with
  | nil => intro acc q; simp
  | cons x xs ih =>
      intro acc q
      rw [List.foldl_cons, ih]
      rw [mem_pushUnique]
      simp [List.mem_cons]
      tauto

theorem nodup_foldl_pushUnique (l : List String) :
    ∀ (acc : List String), acc.Nodup → (l.foldl pushUnique acc).Nodup := by
  induction l with
  | nil => intro acc h; exact h
  | cons x xs ih =>
      intro acc h
      rw [List.foldl_cons]
      exact ih _ (nodup_pushUnique acc x h)

theorem templateResults_length (E : RegexEngine) (bid ts : String) (paths : List String) :
    ∀ (rules : List Rule) (isFirst : Bool) (fs : FS) (store : BackupStore),
      (templateResults E bid ts paths rules isFirst fs store).length = rules.length := by
  intro rules
  induction rules with
  | nil => intro isFirst fs store; rfl
  | cons r rest ih =>
      intro isFirst fs store
      simp only [templateResults, List.length_cons, ih]

theorem templateLoop_spec (E : RegexEngine) (bid ts : String) (paths : List String) :
    ∀ (rules : List Rule) (isFirst : Bool) (accM : List String) (accC : Nat)
      (accB : Option String) (fs : FS) (store : BackupStore),
      (∀ q, q ∈ (templateLoop E bid ts paths rules isFirst accM accC accB fs store).1 ↔
        q ∈ accM ∨ ∃ res ∈ templateResults E bid ts paths rules isFirst fs store,
          q ∈ res.modified) ∧
      (accM.Nodup → (templateLoop E bid ts paths rules isFirst accM accC accB fs store).1.Nodup) ∧
      (templateLoop E bid ts paths rules isFirst accM accC accB fs store).2.1 =
        accC + ((templateResults E bid ts paths rules isFirst fs store).map
          ModifyResult.changes).sum ∧
      (templateLoop E bid ts paths rules isFirst accM accC accB fs store).2.2.1 =
        (match isFirst, templateResults E bid ts paths rules isFirst fs store with
         | true, res :: _ => if res.backupId.isSome then res.backupId else accB
         | _, _ => accB) := by
  intro rules
  induction rules with
  | nil =>
      intro isFirst accM accC accB fs store
      refine ⟨by simp [templateLoop, templateResults], fun h => h, by simp [templateLoop, templateResults], ?_⟩
      cases isFirst <;> rfl
  | cons r rest ih =>
      intro isFirst accM accC accB fs store
      have IH := ih false
        ((applyChanges E fs store bid ts paths r.find r.replace r.isRegex isFirst).1.modified.foldl
          pushUnique accM)
        (accC + (applyChanges E fs store bid ts paths r.find r.replace r.isRegex isFirst).1.changes)
        (if isFirst &&
            (applyChanges E fs store bid ts paths r.find r.replace r.isRegex isFirst).1.backupId.isSome then
          (applyChanges E fs store bid ts paths r.find r.replace r.isRegex isFirst).1.backupId
         else accB)
        (applyChanges E fs store bid ts paths r.find r.replace r.isRegex isFirst).2.1
        (applyChanges E fs store bid ts paths r.find r.replace r.isRegex isFirst).2.2
      refine ⟨?_, ?_, ?_, ?_⟩
      · intro q
        rw [templateLoop]
        rw [IH.1 q]
        rw [mem_foldl_pushUnique]
        simp only [templateResults, List.exists_mem_cons_iff]
        tauto
      · intro hacc
        rw [templateLoop]
        exact IH.2.1 (nodup_foldl_pushUnique _ _ hacc)
      · rw [templateLoop]
        rw [IH.2.2.1]
        simp only [templateResults, List.map_cons, List.sum_cons]
        omega
      · rw [templateLoop]
        rw [IH.2.2.2]
        cases isFirst with
        | false => simp [templateResults]
        | true => simp [templateResults]

end TemplateLemmas

/-- C8.  Template application calls `apply` once per rule in index order,
with a backup requested only for rule index 0 (`templateResults` threads the
filesystem and store through `applyChanges` with `shouldBackup` true exactly
for the first rule): the combined modified list is the duplicate-free union
of the per-rule modified lists, the combined change count is the sum of the
per-rule change counts, and the returned backup id is the first rule's (and
only the first rule's) backup id.  At the spec's 2-rule scenario — rule 1
matching 3 files, rule 2 matching 1 other file — the combined modified set
has size 4, the total is 3 + 1 = 4 changes, and exactly one backup id is
returned. -/
theorem template_rules_sequencing (E : RegexEngine) (fs : FS) (store : BackupStore)
    (bid ts : String) (rules : List Rule) (paths : List String) :
    ((∀ q, q ∈ (applyTemplate E fs store bid ts rules paths).1 ↔
        ∃ res ∈ templateResults E bid ts paths rules true fs store, q ∈ res.modified) ∧
     (applyTemplate E fs store bid ts rules paths).1.Nodup ∧
     (applyTemplate E fs store bid ts rules paths).2.1 =
       ((templateResults E bid ts paths rules true fs store).map ModifyResult.changes).sum ∧
     (applyTemplate E fs store bid ts rules paths).2.2.1 =
       (match templateResults E bid ts paths rules true fs store with
        | [] => none
        | res :: _ => res.backupId) ∧
     (templateResults E bid ts paths rules true fs store).length = rules.length) ∧
    ((applyTemplate litEngine
        [("f1", ⟨"a1", false⟩), ("f2", ⟨"q2", false⟩), ("f3", ⟨"a3", false⟩),
         ("f4", ⟨"a4", false⟩)] [] "backup_2025-01-01_00-00-00" "t"
        [⟨"a", "z", false⟩, ⟨"q", "w", false⟩] ["f1", "f2", "f3", "f4"]).1 =
          ["f1", "f3", "f4", "f2"] ∧
     (applyTemplate litEngine
        [("f1", ⟨"a1", false⟩), ("f2", ⟨"q2", false⟩), ("f3", ⟨"a3", false⟩),
         ("f4", ⟨"a4", false⟩)] [] "backup_2025-01-01_00-00-00" "t"
        [⟨"a", "z", false⟩, ⟨"q", "w", false⟩] ["f1", "f2", "f3", "f4"]).2.1 = 3 + 1 ∧
     (applyTemplate litEngine
        [("f1", ⟨"a1", false⟩), ("f2", ⟨"q2", false⟩), ("f3", ⟨"a3", false⟩),
         ("f4", ⟨"a4", false⟩)] [] "backup_2025-01-01_00-00-00" "t"
        [⟨"a", "z", false⟩, ⟨"q", "w", false⟩] ["f1", "f2", "f3", "f4"]).2.2.1 =
          some "backup_2025-01-01_00-00-00") := by
  have hs := templateLoop_spec E bid ts paths rules true [] 0 none fs store
  refine ⟨⟨?_, ?_, ?_, ?_, templateResults_length E bid ts paths rules true fs store⟩,
    by decide, by decide, by decide⟩
  · intro q
    rw [applyTemplate, hs.1 q]
    simp
  · exact hs.2.1 List.nodup_nil
  · rw [applyTemplate, hs.2.2.1]
    simp
  · rw [applyTemplate, hs.2.2.2]
    cases hres : templateResults E bid ts paths rules true fs store with
    | nil => rfl
    | cons res rs =>
        cases hb : res.backupId with
        | none => simp [hb]
        | some b => simp [hb]

end ShadTweaker
